import Mathlib

/-!
Verification of the toast notification manager (ToastManager) and the
paginated data-adapter subsystem (DummyJSONProductAdapter, useInfiniteData)
of the nextjs-template repository.

The TypeScript source is shallowly embedded:
- the manager's mutable fields become a ManagerState record threaded
  explicitly through the operations;
- the runtime Map objects (timers, remainingTime, startTime) become
  association lists with JS-Map set/get/delete semantics;
- wall-clock reads (Date.now) become an explicit now argument;
- setTimeout handles are modelled by recording, per id, the delay the
  timer was scheduled with (the only observable the claims need);
- the announce callback becomes a log of (message, priority) events,
  guarded by a hasAnnouncer flag mirroring the optional callback;
- subscriber notification (notify) carries no manager state and is omitted;
- the action field of a toast holds only a callback and is omitted.
-/

/-! ## Association-list model of the JS Map objects -/

/-- Lookup in a JS-Map modelled as an association list (Map.get). -/
def mapGet {α : Type} (m : List (String × α)) (k : String) : Option α :=
  (m.find? (fun p => p.1 == k)).map (fun p => p.2)

/-- JS Map.set: replace the value in place when the key is present,
otherwise append the binding at the end (insertion order preserved). -/
def mapSet {α : Type} (m : List (String × α)) (k : String) (v : α) : List (String × α) :=
  if m.any (fun p => p.1 == k) then
    m.map (fun p => if p.1 == k then (k, v) else p)
  else
    m ++ [(k, v)]

/-- JS Map.delete: remove the binding for the key when present. -/
def mapDelete {α : Type} (m : List (String × α)) (k : String) : List (String × α) :=
  m.filter (fun p => p.1 != k)

/-! ## Toast data model (part_010 types, after addToast applies defaults) -/

/-- ToastVariant union type of the source. -/
inductive ToastVariant where
  | success
  | error
  | warning
  | info
deriving DecidableEq, Repr

/-- AnnouncementPriority union type from AnnouncementProvider. -/
inductive AnnouncementPriority where
  | polite
  | assertive
deriving DecidableEq, Repr

/-- ToastOptions as passed by a caller; a field that the caller omitted is
none (the action callback is omitted from the model). -/
structure ToastOptions where
  description : Option String := none
  duration : Option Int := none
  announceToScreenReader : Option Bool := none
  announcementPriority : Option AnnouncementPriority := none
deriving DecidableEq, Repr

/-- The argument of addToast: a Toast without the id field. -/
structure ToastInput where
  variant : ToastVariant
  title : String
  opts : ToastOptions := {}
deriving DecidableEq, Repr

/-- A Toast after addToast assigned the id and applied the defaults
(duration 5000, announceToScreenReader true) to omitted fields. -/
structure Toast where
  id : String
  variant : ToastVariant
  title : String
  description : Option String
  duration : Int
  announceToScreenReader : Bool
  announcementPriority : Option AnnouncementPriority
deriving DecidableEq, Repr

/-- The object literal built at the top of addToast:
id plus defaults, overridden by the caller-provided fields. -/
def mkToast (id : String) (inp : ToastInput) : Toast :=
  { id := id
    variant := inp.variant
    title := inp.title
    description := inp.opts.description
    duration := inp.opts.duration.getD 5000
    announceToScreenReader := inp.opts.announceToScreenReader.getD true
    announcementPriority := inp.opts.announcementPriority }

/-- The private mutable fields of the ToastManager class: the two toast
sequences, the capacity bound, the three bookkeeping maps (a timer entry
records the delay the timeout was scheduled with), whether an announce
callback was registered, and the log of announce-callback invocations. -/
structure ManagerState where
  visibleToasts : List Toast
  queuedToasts : List Toast
  maxToasts : Nat
  timers : List (String × Int)
  remainingTime : List (String × Int)
  startTime : List (String × Int)
  hasAnnouncer : Bool
  announceLog : List (String × AnnouncementPriority)
deriving DecidableEq, Repr

/-- State of the freshly constructed singleton manager (maxToasts = 5). -/
def initialManagerState : ManagerState :=
  { visibleToasts := []
    queuedToasts := []
    maxToasts := 5
    timers := []
    remainingTime := []
    startTime := []
    hasAnnouncer := false
    announceLog := [] }

/-- Message computed by announceToast: the title, extended with a period
and the description when the description is truthy (present and
non-empty, mirroring the conditional expression of the source). -/
def announceMessage (t : Toast) : String :=
  match t.description with
  | some d => if d != "" then t.title ++ ". " ++ d else t.title
  | none => t.title

/-- Priority computed by announceToast: the per-toast override when
present, otherwise assertive for the error variant and polite otherwise. -/
def announcePriorityOf (t : Toast) : AnnouncementPriority :=
  t.announcementPriority.getD
    (if t.variant = ToastVariant.error then AnnouncementPriority.assertive
     else AnnouncementPriority.polite)

/-- ToastManager.announceToast: invoke the announce callback when the toast
has announcements enabled and a callback is registered. -/
def announceToast (t : Toast) (s : ManagerState) : ManagerState :=
  if t.announceToScreenReader && s.hasAnnouncer then
    { s with announceLog := s.announceLog ++ [(announceMessage t, announcePriorityOf t)] }
  else s

/-- ToastManager.showToast: append to the visible list, announce, notify,
and when the duration is truthy and positive start the bookkeeping and the
auto-dismiss timer. -/
def showToast (now : Int) (t : Toast) (s : ManagerState) : ManagerState :=
  let s1 := { s with visibleToasts := s.visibleToasts ++ [t] }
  let s2 := announceToast t s1
  if 0 < t.duration then
    { s2 with
      startTime := mapSet s2.startTime t.id now
      remainingTime := mapSet s2.remainingTime t.id t.duration
      timers := mapSet s2.timers t.id t.duration }
  else s2

/-- ToastManager.addToast: the generated id is passed explicitly. At
capacity the new toast is queued (front for the error variant, back
otherwise) and still announced; below capacity it is shown directly. -/
def addToast (now : Int) (id : String) (inp : ToastInput) (s : ManagerState) : ManagerState :=
  let newToast := mkToast id inp
  if s.maxToasts ≤ s.visibleToasts.length then
    let s1 :=
      if newToast.variant = ToastVariant.error then
        { s with queuedToasts := newToast :: s.queuedToasts }
      else
        { s with queuedToasts := s.queuedToasts ++ [newToast] }
    announceToast newToast s1
  else
    showToast now newToast s

/-- ToastManager.showToast leaves the queue untouched (needed for the
termination of processQueue). -/
theorem showToast_queuedToasts (now : Int) (t : Toast) (s : ManagerState) :
    (showToast now t s).queuedToasts = s.queuedToasts := by
  unfold showToast announceToast
  dsimp only
  split
  · split <;> rfl
  · split <;> rfl

/-- Loop body of ToastManager.processQueue: while there is a free
visible slot and the queue is non-empty, pop the front of the queue and
show it. The fuel argument bounds the iteration count structurally; each
iteration shortens the queue by one, so fuel equal to the queue length
(as processQueue passes) never runs out before the loop condition fails. -/
def processQueueAux (now : Int) (fuel : Nat) (s : ManagerState) : ManagerState :=
  match fuel with
  | 0 => s
  | fuel + 1 =>
    if s.visibleToasts.length < s.maxToasts then
      match s.queuedToasts with
      | [] => s
      | t :: rest => processQueueAux now fuel (showToast now t { s with queuedToasts := rest })
    else s

/-- ToastManager.processQueue: run the promotion loop to completion. -/
def processQueue (now : Int) (s : ManagerState) : ManagerState :=
  processQueueAux now s.queuedToasts.length s

/-- ToastManager.dismissToast: clear any active timer, drop the
bookkeeping entries, remove the id from both toast sequences, notify,
then run queue processing. -/
def dismissToast (now : Int) (id : String) (s : ManagerState) : ManagerState :=
  let s1 :=
    match mapGet s.timers id with
    | some _ => { s with timers := mapDelete s.timers id }
    | none => s
  let s2 :=
    { s1 with
      remainingTime := mapDelete s1.remainingTime id
      startTime := mapDelete s1.startTime id
      visibleToasts := s1.visibleToasts.filter (fun t => t.id != id)
      queuedToasts := s1.queuedToasts.filter (fun t => t.id != id) }
  processQueue now s2

/-- ToastManager.pauseToast: a no-op without an active timer; otherwise
fold the elapsed wall-clock time into remainingTime (clamped at 0) and
cancel the timer. -/
def pauseToast (now : Int) (id : String) (s : ManagerState) : ManagerState :=
  match mapGet s.timers id with
  | none => s
  | some _ =>
    let s1 :=
      match mapGet s.startTime id, mapGet s.remainingTime id with
      | some start, some remaining =>
        { s with remainingTime := mapSet s.remainingTime id (max 0 (remaining - (now - start))) }
      | _, _ => s
    { s1 with timers := mapDelete s1.timers id }

/-- ToastManager.resumeToast: a no-op when a timer is already running or
no positive remaining time is recorded; otherwise reset startTime and
schedule a timer for exactly the recorded remaining time. -/
def resumeToast (now : Int) (id : String) (s : ManagerState) : ManagerState :=
  if (mapGet s.timers id).isSome then s
  else
    match mapGet s.remainingTime id with
    | none => s
    | some remaining =>
      if remaining ≤ 0 then s
      else
        { s with
          startTime := mapSet s.startTime id now
          timers := mapSet s.timers id remaining }

/-- ToastManager.setMaxToasts: set the capacity bound, then immediately
run queue processing. -/
def setMaxToasts (now : Int) (n : Nat) (s : ManagerState) : ManagerState :=
  processQueue now { s with maxToasts := n }

/-- ToastManager.dismissAll: cancel every timer, clear the bookkeeping
maps, empty both toast sequences, notify. -/
def dismissAll (s : ManagerState) : ManagerState :=
  { s with
    timers := []
    remainingTime := []
    startTime := []
    visibleToasts := []
    queuedToasts := [] }

/-- A sequence of addToast calls (each with its own wall-clock instant,
generated id and input), folded over the manager state. -/
def addSequence (adds : List (Int × String × ToastInput)) (s : ManagerState) : ManagerState :=
  adds.foldl (fun acc p => addToast p.1 p.2.1 p.2.2 acc) s

/-- A run of pause/resume cycles on one id: each pair holds the pause
instant and the resume instant. -/
def applyCycles (id : String) : List (Int × Int) → ManagerState → ManagerState
  | [], s => s
  | (tp, tr) :: rest, s => applyCycles id rest (resumeToast tr id (pauseToast tp id s))

/-- Total running time a toast accumulates over a cycle list, measured
from the given start-of-interval instant. -/
def cyclesElapsed (t0 : Int) : List (Int × Int) → Int
  | [] => 0
  | (tp, tr) :: rest => (tp - t0) + cyclesElapsed tr rest

/-- Each pause instant comes no earlier than the start of its running
interval (the preceding resume, or the initial start). -/
def cyclesOrdered (t0 : Int) : List (Int × Int) → Bool
  | [] => true
  | (tp, tr) :: rest => decide (t0 ≤ tp) && cyclesOrdered tr rest

/-! ## URLSearchParams model (application/x-www-form-urlencoded) -/

/-- One hexadecimal digit, uppercase, as URLSearchParams prints it. -/
def hexDigit (n : Nat) : Char :=
  if n < 10 then Char.ofNat (48 + n) else Char.ofNat (55 + n)

/-- Percent-encoding of one byte value. -/
def percentByte (b : Nat) : String :=
  String.mk ['%', hexDigit (b / 16 % 16), hexDigit (b % 16)]

/-- UTF-8 byte sequence of a Unicode code point. -/
def utf8Bytes (n : Nat) : List Nat :=
  if n < 128 then [n]
  else if n < 2048 then [192 + n / 64, 128 + n % 64]
  else if n < 65536 then [224 + n / 4096, 128 + n / 64 % 64, 128 + n % 64]
  else [240 + n / 262144, 128 + n / 4096 % 64, 128 + n / 64 % 64, 128 + n % 64]

/-- Characters URLSearchParams serialization leaves unescaped:
ASCII alphanumerics and the marks asterisk, hyphen, period, underscore. -/
def isFormSafeChar (c : Char) : Bool :=
  (97 ≤ c.toNat && c.toNat ≤ 122) || (65 ≤ c.toNat && c.toNat ≤ 90) ||
  (48 ≤ c.toNat && c.toNat ≤ 57) ||
  c = '*' || c = '-' || c = '.' || c = '_'

/-- Form-urlencoded encoding of one character: safe characters kept,
space becomes a plus, everything else percent-encoded byte by byte. -/
def formEncodeChar (c : Char) : String :=
  if isFormSafeChar c then String.mk [c]
  else if c = ' ' then "+"
  else String.join ((utf8Bytes c.toNat).map percentByte)

/-- Form-urlencoded encoding of a string. -/
def formEncode (s : String) : String :=
  String.join (s.toList.map formEncodeChar)

/-- URLSearchParams: an ordered list of name/value pairs. -/
structure URLSearchParams where
  pairs : List (String × String) := []
deriving DecidableEq, Repr

/-- URLSearchParams.set: replace the value of an existing name in place,
otherwise append the pair. -/
def URLSearchParams.set (p : URLSearchParams) (k v : String) : URLSearchParams :=
  if p.pairs.any (fun q => q.1 == k) then
    ⟨p.pairs.map (fun q => if q.1 == k then (k, v) else q)⟩
  else
    ⟨p.pairs ++ [(k, v)]⟩

/-- URLSearchParams.toString: ampersand-joined encoded name=value pairs. -/
def URLSearchParams.toString (p : URLSearchParams) : String :=
  String.intercalate "&" (p.pairs.map (fun q => formEncode q.1 ++ "=" ++ formEncode q.2))

/-! ## DummyJSONProductAdapter and the infinite-data driver -/

/-- InternalProductFilters: optional search and category filters. -/
structure InternalProductFilters where
  search : Option String := none
  category : Option String := none
deriving DecidableEq, Repr

/-- Truthiness of an optional string in a TS if-condition: present and
non-empty. -/
def strTruthy : Option String → Bool
  | some s => s != ""
  | none => false

/-- The raw DummyJSON page response shape, generic in the product type
(the fields of a product are never inspected by this subsystem). -/
structure DummyJSONProductsResponse (α : Type) where
  products : List α
  total : Int
  skip : Int
  limit : Int
deriving DecidableEq, Repr

/-- The standardized parsed-page shape every adapter produces. -/
structure ParsedPage (α : Type) where
  items : List α
  total : Int
  hasNextPage : Bool
deriving DecidableEq, Repr

/-- DummyJSONProductAdapter: per-instance configuration is the page size
fixed at construction (default 20). -/
structure DummyJSONProductAdapter where
  limit : Int := 20
deriving DecidableEq, Repr

/-- The adapter's initial pagination parameter: the first skip value. -/
def DummyJSONProductAdapter.initialPageParam (_ : DummyJSONProductAdapter) : Int := 0

/-- DummyJSONProductAdapter.buildURL: set limit and skip, then route to
the search endpoint, the category endpoint, or the default list. -/
def DummyJSONProductAdapter.buildURL (a : DummyJSONProductAdapter)
    (filters : InternalProductFilters) (skip : Int) : String :=
  let params := ((URLSearchParams.mk []).set "limit" (ToString.toString a.limit)).set
    "skip" (ToString.toString skip)
  if strTruthy filters.search then
    let params := params.set "q" (filters.search.getD "")
    "/products/search?" ++ params.toString
  else if strTruthy filters.category then
    "/products/category/" ++ filters.category.getD "" ++ "?" ++ params.toString
  else
    "/products?" ++ params.toString

/-- DummyJSONProductAdapter.parseResponse: standardize a raw page. -/
def DummyJSONProductAdapter.parseResponse {α : Type} (_ : DummyJSONProductAdapter)
    (r : DummyJSONProductsResponse α) : ParsedPage α :=
  { items := r.products
    total := r.total
    hasNextPage := decide (r.skip + r.limit < r.total) }

/-- DummyJSONProductAdapter.getNextPageParam: the next skip is the number
of fetched pages times the page size; absent once it reaches the last
page's reported total. -/
def DummyJSONProductAdapter.getNextPageParam {α : Type} (a : DummyJSONProductAdapter)
    (lastPage : ParsedPage α) (allPages : List (ParsedPage α)) : Option Int :=
  let nextSkip := (allPages.length : Int) * a.limit
  if nextSkip < lastPage.total then some nextSkip else none

/-- The cached infinite-query data the select transform receives: the
fetched pages in fetch order and their page parameters. -/
structure InfiniteQueryData (α π : Type) where
  pages : List (ParsedPage α)
  pageParams : List π
deriving DecidableEq, Repr

/-- The aggregate view useInfiniteData exposes through its select option. -/
structure SelectedData (α π : Type) where
  pages : List (ParsedPage α)
  pageParams : List π
  items : List α
  total : Int
  hasNextPage : Bool
deriving DecidableEq, Repr

/-- The select transform of useInfiniteData: flatten the pages' items and
take total and hasNextPage from the last fetched page, with the JS
or-default (0, false) when there is no page. -/
def selectInfiniteData {α π : Type} (d : InfiniteQueryData α π) : SelectedData α π :=
  { pages := d.pages
    pageParams := d.pageParams
    items := d.pages.flatMap (fun p => p.items)
    total := ((d.pages.getLast?).map (fun p => p.total)).getD 0
    hasNextPage := ((d.pages.getLast?).map (fun p => p.hasNextPage)).getD false }

/-! ## Lemmas about the association-list map operations -/

/-- Lookup distributes over cons. -/
theorem mapGet_cons {α : Type} (p : String × α) (rest : List (String × α)) (k : String) :
    mapGet (p :: rest) k = if p.1 = k then some p.2 else mapGet rest k := by
  by_cases h : p.1 = k
  · unfold mapGet
    rw [@List.find?_cons_of_pos _ (fun q => q.1 == k) p rest (by simpa using h)]
    simp [h]
  · unfold mapGet
    rw [@List.find?_cons_of_neg _ (fun q => q.1 == k) p rest (by simpa using h)]
    simp [h]

/-- A key that no entry carries looks up to none. -/
theorem mapGet_eq_none_of_any_false {α : Type} {m : List (String × α)} {k : String}
    (h : m.any (fun p => p.1 == k) = false) : mapGet m k = none := by
  induction m with
  | nil => rfl
  | cons p rest ih =>
    simp only [List.any_cons, Bool.or_eq_false_iff] at h
    have hp : ¬ p.1 = k := by simpa using h.1
    rw [mapGet_cons, if_neg hp, ih h.2]

/-- Absence of a key, phrased through mapGet, gives the per-entry fact. -/
theorem keys_ne_of_mapGet_none {α : Type} {m : List (String × α)} {k : String}
    (h : mapGet m k = none) : ∀ p ∈ m, ¬ p.1 = k := by
  intro p hp
  unfold mapGet at h
  rw [Option.map_eq_none', List.find?_eq_none] at h
  simpa using h p hp

/-- Replacing in place finds the new value when the key was present. -/
theorem mapGet_map_replace {α : Type} (m : List (String × α)) (k : String) (v : α)
    (h : m.any (fun p => p.1 == k) = true) :
    mapGet (m.map (fun p => if p.1 == k then (k, v) else p)) k = some v := by
  induction m with
  | nil => simp at h
  | cons p rest ih =>
    rw [List.map_cons]
    by_cases hp : p.1 = k
    · have hpb : (p.1 == k) = true := by simpa using hp
      rw [if_pos hpb, mapGet_cons, if_pos rfl]
    · have hpb : ¬ ((p.1 == k) = true) := by simpa using hp
      have h2 : rest.any (fun p => p.1 == k) = true := by
        rw [List.any_cons] at h
        rcases Bool.or_eq_true_iff.mp h with h3 | h3
        · exact absurd h3 hpb
        · exact h3
      rw [if_neg hpb, mapGet_cons, if_neg hp]
      exact ih h2

/-- Replacing in place does not disturb lookups of other keys. -/
theorem mapGet_map_replace_ne {α : Type} (m : List (String × α)) (k k' : String) (v : α)
    (hne : k' ≠ k) :
    mapGet (m.map (fun p => if p.1 == k then (k, v) else p)) k' = mapGet m k' := by
  have hk : ¬ k = k' := fun h => hne h.symm
  induction m with
  | nil => rfl
  | cons p rest ih =>
    rw [List.map_cons]
    by_cases hp : p.1 = k
    · have hpb : (p.1 == k) = true := by simpa using hp
      have hpk : ¬ p.1 = k' := by
        rw [hp]
        exact hk
      rw [if_pos hpb, mapGet_cons, mapGet_cons, if_neg hk, if_neg hpk]
      exact ih
    · have hpb : ¬ ((p.1 == k) = true) := by simpa using hp
      rw [if_neg hpb, mapGet_cons, mapGet_cons, ih]

/-- mapSet stores the value at its key. -/
theorem mapGet_mapSet_self {α : Type} (m : List (String × α)) (k : String) (v : α) :
    mapGet (mapSet m k v) k = some v := by
  unfold mapSet
  split
  case isTrue h => exact mapGet_map_replace m k v h
  case isFalse h =>
    have h0 : m.any (fun p => p.1 == k) = false := by
      rw [Bool.eq_false_iff]
      exact h
    have h1 : m.find? (fun p => p.1 == k) = none := by
      rw [List.find?_eq_none]
      intro x hx
      have := keys_ne_of_mapGet_none (mapGet_eq_none_of_any_false h0) x hx
      simpa using this
    unfold mapGet
    rw [List.find?_append, h1]
    rw [@List.find?_cons_of_pos _ (fun p => p.1 == k) (k, v) [] (by simp)]
    rfl

/-- mapSet leaves lookups of other keys unchanged. -/
theorem mapGet_mapSet_ne {α : Type} (m : List (String × α)) (k k' : String) (v : α)
    (hne : k' ≠ k) : mapGet (mapSet m k v) k' = mapGet m k' := by
  unfold mapSet
  split
  · exact mapGet_map_replace_ne m k k' v hne
  · have h1 : List.find? (fun p => p.1 == k') [(k, v)] = none := by
      rw [@List.find?_cons_of_neg _ (fun p => p.1 == k') (k, v) []
        (by simpa using fun h => hne h.symm)]
      rfl
    unfold mapGet
    rw [List.find?_append, h1]
    cases m.find? (fun p => p.1 == k') <;> rfl

/-- mapDelete removes its key. -/
theorem mapGet_mapDelete_self {α : Type} (m : List (String × α)) (k : String) :
    mapGet (mapDelete m k) k = none := by
  induction m with
  | nil => rfl
  | cons p rest ih =>
    unfold mapDelete at ih ⊢
    rw [List.filter_cons]
    by_cases hp : p.1 = k
    · have hb : (p.1 != k) = false := by simp [hp]
      rw [hb, if_neg (by simp)]
      exact ih
    · have hb : (p.1 != k) = true := by simp [hp]
      rw [hb, if_pos rfl, mapGet_cons, if_neg hp]
      exact ih

/-- mapDelete leaves lookups of other keys unchanged. -/
theorem mapGet_mapDelete_ne {α : Type} (m : List (String × α)) (k k' : String)
    (hne : k' ≠ k) : mapGet (mapDelete m k) k' = mapGet m k' := by
  induction m with
  | nil => rfl
  | cons p rest ih =>
    unfold mapDelete at ih ⊢
    rw [List.filter_cons]
    by_cases hp : p.1 = k
    · have hb : (p.1 != k) = false := by simp [hp]
      have hpk : ¬ p.1 = k' := by
        rw [hp]
        exact fun h => hne h.symm
      rw [hb, if_neg (by simp), mapGet_cons, if_neg hpk]
      exact ih
    · have hb : (p.1 != k) = true := by simp [hp]
      rw [hb, if_pos rfl, mapGet_cons, mapGet_cons, ih]

/-- Deleting an absent key is the identity. -/
theorem mapDelete_eq_self {α : Type} (m : List (String × α)) (k : String)
    (h : mapGet m k = none) : mapDelete m k = m := by
  unfold mapDelete
  rw [List.filter_eq_self]
  intro p hp
  have := keys_ne_of_mapGet_none h p hp
  simpa using this

/-! ## Projection lemmas for the manager operations -/

/-- announceToast changes only the announcement log. -/
theorem announceToast_visibleToasts (t : Toast) (s : ManagerState) :
    (announceToast t s).visibleToasts = s.visibleToasts := by
  unfold announceToast
  split <;> rfl

/-- announceToast leaves the queue unchanged. -/
theorem announceToast_queuedToasts (t : Toast) (s : ManagerState) :
    (announceToast t s).queuedToasts = s.queuedToasts := by
  unfold announceToast
  split <;> rfl

/-- announceToast leaves the capacity bound unchanged. -/
theorem announceToast_maxToasts (t : Toast) (s : ManagerState) :
    (announceToast t s).maxToasts = s.maxToasts := by
  unfold announceToast
  split <;> rfl

/-- announceToast leaves the timer map unchanged. -/
theorem announceToast_timers (t : Toast) (s : ManagerState) :
    (announceToast t s).timers = s.timers := by
  unfold announceToast
  split <;> rfl

/-- announceToast leaves the remaining-time map unchanged. -/
theorem announceToast_remainingTime (t : Toast) (s : ManagerState) :
    (announceToast t s).remainingTime = s.remainingTime := by
  unfold announceToast
  split <;> rfl

/-- announceToast leaves the start-time map unchanged. -/
theorem announceToast_startTime (t : Toast) (s : ManagerState) :
    (announceToast t s).startTime = s.startTime := by
  unfold announceToast
  split <;> rfl

/-- announceToast leaves the announcer registration unchanged. -/
theorem announceToast_hasAnnouncer (t : Toast) (s : ManagerState) :
    (announceToast t s).hasAnnouncer = s.hasAnnouncer := by
  unfold announceToast
  split <;> rfl

/-- showToast appends the toast at the back of the visible sequence. -/
theorem showToast_visibleToasts (now : Int) (t : Toast) (s : ManagerState) :
    (showToast now t s).visibleToasts = s.visibleToasts ++ [t] := by
  unfold showToast
  dsimp only
  split
  · rw [announceToast_visibleToasts]
  · rw [announceToast_visibleToasts]

/-- showToast leaves the capacity bound unchanged. -/
theorem showToast_maxToasts (now : Int) (t : Toast) (s : ManagerState) :
    (showToast now t s).maxToasts = s.maxToasts := by
  unfold showToast
  dsimp only
  split
  · rw [announceToast_maxToasts]
  · rw [announceToast_maxToasts]

/-- showToast leaves the announcer registration unchanged. -/
theorem showToast_hasAnnouncer (now : Int) (t : Toast) (s : ManagerState) :
    (showToast now t s).hasAnnouncer = s.hasAnnouncer := by
  unfold showToast
  dsimp only
  split
  · rw [announceToast_hasAnnouncer]
  · rw [announceToast_hasAnnouncer]

/-- showToast touches the timer map of other ids nowhere. -/
theorem showToast_timers_ne (now : Int) (t : Toast) (s : ManagerState) (id : String)
    (hne : id ≠ t.id) : mapGet (showToast now t s).timers id = mapGet s.timers id := by
  unfold showToast
  dsimp only
  split
  · rw [mapGet_mapSet_ne _ _ _ _ hne, announceToast_timers]
  · rw [announceToast_timers]

/-- showToast touches the remaining-time map of other ids nowhere. -/
theorem showToast_remainingTime_ne (now : Int) (t : Toast) (s : ManagerState) (id : String)
    (hne : id ≠ t.id) :
    mapGet (showToast now t s).remainingTime id = mapGet s.remainingTime id := by
  unfold showToast
  dsimp only
  split
  · rw [mapGet_mapSet_ne _ _ _ _ hne, announceToast_remainingTime]
  · rw [announceToast_remainingTime]

/-- showToast touches the start-time map of other ids nowhere. -/
theorem showToast_startTime_ne (now : Int) (t : Toast) (s : ManagerState) (id : String)
    (hne : id ≠ t.id) :
    mapGet (showToast now t s).startTime id = mapGet s.startTime id := by
  unfold showToast
  dsimp only
  split
  · rw [mapGet_mapSet_ne _ _ _ _ hne, announceToast_startTime]
  · rw [announceToast_startTime]

/-! ## Characterization of processQueue -/

/-- Number of queued toasts processQueue promotes: the free visible
capacity, bounded by the queue length. -/
def promoCount (s : ManagerState) : Nat :=
  min (s.maxToasts - s.visibleToasts.length) s.queuedToasts.length

/-- processQueue is the identity when no visible slot is free. -/
theorem processQueue_eq_done (now : Int) (s : ManagerState)
    (h : ¬ s.visibleToasts.length < s.maxToasts) : processQueue now s = s := by
  unfold processQueue
  cases s.queuedToasts.length with
  | zero => rw [processQueueAux.eq_1]
  | succ n => rw [processQueueAux.eq_2, if_neg h]

/-- processQueue is the identity when the queue is empty. -/
theorem processQueue_eq_empty (now : Int) (s : ManagerState)
    (h : s.visibleToasts.length < s.maxToasts) (hq : s.queuedToasts = []) :
    processQueue now s = s := by
  unfold processQueue
  rw [hq]
  rfl

/-- One promotion step of processQueue. -/
theorem processQueue_eq_step (now : Int) (s : ManagerState) (t : Toast) (rest : List Toast)
    (h : s.visibleToasts.length < s.maxToasts) (hq : s.queuedToasts = t :: rest) :
    processQueue now s = processQueue now (showToast now t { s with queuedToasts := rest }) := by
  unfold processQueue
  rw [showToast_queuedToasts]
  dsimp only
  rw [hq, List.length_cons, processQueueAux.eq_2, if_pos h, hq]

/-- processQueueAux with enough fuel moves exactly promoCount toasts
from the front of the queue to the back of the visible sequence and
keeps the capacity bound. -/
theorem processQueueAux_spec (now : Int) (fuel : Nat) :
    ∀ s : ManagerState, s.queuedToasts.length ≤ fuel →
      (processQueueAux now fuel s).visibleToasts
          = s.visibleToasts ++ s.queuedToasts.take (promoCount s) ∧
        (processQueueAux now fuel s).queuedToasts = s.queuedToasts.drop (promoCount s) ∧
        (processQueueAux now fuel s).maxToasts = s.maxToasts := by
  induction fuel with
  | zero =>
    intro s h
    have hq : s.queuedToasts = [] := List.eq_nil_of_length_eq_zero (by omega)
    rw [processQueueAux.eq_1]
    simp [promoCount, hq]
  | succ n ih =>
    intro s h
    by_cases hlt : s.visibleToasts.length < s.maxToasts
    · cases hq : s.queuedToasts with
      | nil =>
        have he : processQueueAux now (n + 1) s = s := by
          rw [processQueueAux.eq_2, if_pos hlt, hq]
        rw [he]
        simp [promoCount, hq]
      | cons t rest =>
        have hstep : processQueueAux now (n + 1) s
            = processQueueAux now n (showToast now t { s with queuedToasts := rest }) := by
          rw [processQueueAux.eq_2, if_pos hlt, hq]
        rw [hstep]
        have hlen : (showToast now t { s with queuedToasts := rest }).queuedToasts.length ≤ n := by
          rw [showToast_queuedToasts]
          dsimp only
          rw [hq] at h
          rw [List.length_cons] at h
          omega
        obtain ⟨ihv, ihq, ihm⟩ := ih (showToast now t { s with queuedToasts := rest }) hlen
        simp only [showToast_visibleToasts, showToast_queuedToasts, showToast_maxToasts]
          at ihv ihq ihm
        have harith : promoCount s =
            promoCount (showToast now t { s with queuedToasts := rest }) + 1 := by
          unfold promoCount
          rw [showToast_visibleToasts, showToast_queuedToasts, showToast_maxToasts]
          dsimp only
          rw [hq]
          simp only [List.length_append, List.length_cons, List.length_nil]
          omega
        refine ⟨?_, ?_, ?_⟩
        · rw [ihv, harith, List.take_succ_cons]
          simp
        · rw [ihq, harith, List.drop_succ_cons]
        · rw [ihm]
    · have he : processQueueAux now (n + 1) s = s := by
        rw [processQueueAux.eq_2, if_neg hlt]
      rw [he]
      have h0 : promoCount s = 0 := by
        unfold promoCount
        omega
      simp [h0]

/-- processQueue moves exactly promoCount toasts from the front of the
queue to the back of the visible sequence and keeps the capacity bound. -/
theorem processQueue_spec (now : Int) (s : ManagerState) :
    (processQueue now s).visibleToasts
        = s.visibleToasts ++ s.queuedToasts.take (promoCount s) ∧
      (processQueue now s).queuedToasts = s.queuedToasts.drop (promoCount s) ∧
      (processQueue now s).maxToasts = s.maxToasts :=
  processQueueAux_spec now s.queuedToasts.length s (Nat.le_refl _)

/-- processQueueAux never touches the bookkeeping of an id absent from
the queue, and keeps the announcer registration. -/
theorem processQueueAux_preserve (now : Int) (fuel : Nat) :
    ∀ (s : ManagerState) (id : String), (∀ t ∈ s.queuedToasts, t.id ≠ id) →
      mapGet (processQueueAux now fuel s).timers id = mapGet s.timers id ∧
      mapGet (processQueueAux now fuel s).remainingTime id = mapGet s.remainingTime id ∧
      mapGet (processQueueAux now fuel s).startTime id = mapGet s.startTime id ∧
      (processQueueAux now fuel s).hasAnnouncer = s.hasAnnouncer := by
  induction fuel with
  | zero =>
    intro s id _
    exact ⟨rfl, rfl, rfl, rfl⟩
  | succ n ih =>
    intro s id h
    by_cases hlt : s.visibleToasts.length < s.maxToasts
    · cases hq : s.queuedToasts with
      | nil =>
        have he : processQueueAux now (n + 1) s = s := by
          rw [processQueueAux.eq_2, if_pos hlt, hq]
        rw [he]
        exact ⟨rfl, rfl, rfl, rfl⟩
      | cons t rest =>
        have hstep : processQueueAux now (n + 1) s
            = processQueueAux now n (showToast now t { s with queuedToasts := rest }) := by
          rw [processQueueAux.eq_2, if_pos hlt, hq]
        rw [hstep]
        have hts : t ∈ s.queuedToasts := by
          rw [hq]
          exact List.mem_cons_self t rest
        have hne : id ≠ t.id := fun he2 => (h t hts) he2.symm
        obtain ⟨iht, ihr, ihs, iha⟩ := ih (showToast now t { s with queuedToasts := rest }) id (by
          intro t' ht'
          rw [showToast_queuedToasts] at ht'
          exact h t' (by rw [hq]; exact List.mem_cons_of_mem t ht'))
        refine ⟨?_, ?_, ?_, ?_⟩
        · rw [iht, showToast_timers_ne _ _ _ _ hne]
        · rw [ihr, showToast_remainingTime_ne _ _ _ _ hne]
        · rw [ihs, showToast_startTime_ne _ _ _ _ hne]
        · rw [iha, showToast_hasAnnouncer]
    · have he : processQueueAux now (n + 1) s = s := by
        rw [processQueueAux.eq_2, if_neg hlt]
      rw [he]
      exact ⟨rfl, rfl, rfl, rfl⟩

/-- processQueue never touches the bookkeeping of an id absent from the
queue, and keeps the announcer registration. -/
theorem processQueue_preserve (now : Int) (s : ManagerState) (id : String) :
    (∀ t ∈ s.queuedToasts, t.id ≠ id) →
      mapGet (processQueue now s).timers id = mapGet s.timers id ∧
      mapGet (processQueue now s).remainingTime id = mapGet s.remainingTime id ∧
      mapGet (processQueue now s).startTime id = mapGet s.startTime id ∧
      (processQueue now s).hasAnnouncer = s.hasAnnouncer :=
  processQueueAux_preserve now s.queuedToasts.length s id

/-- After processQueue either the queue is empty or the visible sequence
is at (or beyond) capacity. -/
theorem processQueue_post (now : Int) (s : ManagerState) :
    (processQueue now s).queuedToasts = [] ∨
      (processQueue now s).maxToasts ≤ (processQueue now s).visibleToasts.length := by
  obtain ⟨hv, hq, hm⟩ := processQueue_spec now s
  rw [hv, hq, hm]
  by_cases hc : s.queuedToasts.length ≤ promoCount s
  · left
    exact List.drop_eq_nil_of_le hc
  · right
    rw [List.length_append, List.length_take]
    unfold promoCount at *
    omega

/-! ## Behavior of addToast and the capacity invariant -/

/-- addSequence distributes over cons. -/
theorem addSequence_cons (a : Int × String × ToastInput)
    (rest : List (Int × String × ToastInput)) (s : ManagerState) :
    addSequence (a :: rest) s = addSequence rest (addToast a.1 a.2.1 a.2.2 s) := rfl

/-- One addToast call keeps the capacity bound and never pushes the
visible count above it. -/
theorem addToast_step (now : Int) (id : String) (inp : ToastInput) (s : ManagerState)
    (h : s.visibleToasts.length ≤ s.maxToasts) :
    (addToast now id inp s).maxToasts = s.maxToasts ∧
      (addToast now id inp s).visibleToasts.length ≤ s.maxToasts := by
  unfold addToast
  dsimp only
  split
  case isTrue hcap =>
    constructor
    · split <;> rw [announceToast_maxToasts]
    · split <;> (rw [announceToast_visibleToasts]; exact h)
  case isFalse hcap =>
    constructor
    · rw [showToast_maxToasts]
    · rw [showToast_visibleToasts]
      rw [List.length_append, List.length_cons, List.length_nil]
      omega

/-- C1: over any sequence of add operations the capacity bound stays
fixed and the visible count never exceeds it, no matter how many
additions are performed (excess toasts are queued, never shown). -/
theorem visible_never_exceeds_maxToasts (adds : List (Int × String × ToastInput))
    (s : ManagerState) (h : s.visibleToasts.length ≤ s.maxToasts) :
    (addSequence adds s).maxToasts = s.maxToasts ∧
      (addSequence adds s).visibleToasts.length ≤ s.maxToasts := by
  induction adds generalizing s with
  | nil => exact ⟨rfl, h⟩
  | cons a rest ih =>
    obtain ⟨hm, hv⟩ := addToast_step a.1 a.2.1 a.2.2 s h
    have hv2 : (addToast a.1 a.2.1 a.2.2 s).visibleToasts.length
        ≤ (addToast a.1 a.2.1 a.2.2 s).maxToasts := by
      rw [hm]
      exact hv
    obtain ⟨ihm, ihv⟩ := ih (addToast a.1 a.2.1 a.2.2 s) hv2
    rw [addSequence_cons]
    constructor
    · rw [ihm, hm]
    · rw [← hm]
      exact ihv

/-- Seven toast inputs added back to back, exceeding the default
capacity of five. -/
def c1DemoAdds : List (Int × String × ToastInput) :=
  [(0, "a", { variant := ToastVariant.info, title := "one" }),
   (10, "b", { variant := ToastVariant.info, title := "two" }),
   (20, "c", { variant := ToastVariant.success, title := "three" }),
   (30, "d", { variant := ToastVariant.warning, title := "four" }),
   (40, "e", { variant := ToastVariant.error, title := "five" }),
   (50, "f", { variant := ToastVariant.info, title := "six" }),
   (60, "g", { variant := ToastVariant.error, title := "seven" })]

/-- Witness for C1: seven additions on the fresh manager leave at most
five visible. -/
theorem visible_never_exceeds_maxToasts_witness :
    initialManagerState.visibleToasts.length ≤ initialManagerState.maxToasts ∧
      (addSequence c1DemoAdds initialManagerState).visibleToasts.length
        ≤ initialManagerState.maxToasts := by
  constructor
  · decide
  · exact (visible_never_exceeds_maxToasts c1DemoAdds initialManagerState (by decide)).2

/-! ## C4 scenario: error toasts jump the queue -/

/-- Manager configured for a single visible toast. -/
def c4State0 : ManagerState := setMaxToasts 0 1 initialManagerState

/-- Success input of the C4 scenario. -/
def c4SuccessInput : ToastInput := { variant := ToastVariant.success, title := "saved" }

/-- Info input of the C4 scenario. -/
def c4InfoInput : ToastInput := { variant := ToastVariant.info, title := "heads up" }

/-- Error input of the C4 scenario. -/
def c4ErrorInput : ToastInput := { variant := ToastVariant.error, title := "failed" }

/-- State after adding success, then info, then error, at capacity one. -/
def c4Final : ManagerState :=
  addToast 2 "e" c4ErrorInput (addToast 1 "i" c4InfoInput (addToast 0 "s" c4SuccessInput c4State0))

/-- C4: with maxVisible one, adding success then info then error leaves
the queue ordered error first then info (error inserted at the front,
the others appended at the back), with the success toast visible. -/
theorem error_priority_queue_order :
    c4Final.queuedToasts = [mkToast "e" c4ErrorInput, mkToast "i" c4InfoInput] ∧
      c4Final.visibleToasts = [mkToast "s" c4SuccessInput] := by
  decide

/-! ## C9: runtime capacity changes -/

/-- C9: setMaxToasts installs the new bound and immediately processes
the queue; shrinking below the visible count changes nothing else, while
any freed capacity promotes toasts from the front of the queue. -/
theorem setMaxToasts_behavior (now : Int) (n : Nat) (s : ManagerState) :
    (setMaxToasts now n s).maxToasts = n ∧
      (n ≤ s.visibleToasts.length → setMaxToasts now n s = { s with maxToasts := n }) ∧
      (setMaxToasts now n s).visibleToasts
        = s.visibleToasts
          ++ s.queuedToasts.take (min (n - s.visibleToasts.length) s.queuedToasts.length) ∧
      (setMaxToasts now n s).queuedToasts
        = s.queuedToasts.drop (min (n - s.visibleToasts.length) s.queuedToasts.length) := by
  obtain ⟨hv, hq, hm⟩ := processQueue_spec now { s with maxToasts := n }
  have hpc : promoCount { s with maxToasts := n }
      = min (n - s.visibleToasts.length) s.queuedToasts.length := rfl
  refine ⟨?_, ?_, ?_, ?_⟩
  · unfold setMaxToasts
    rw [hm]
  · intro hle
    unfold setMaxToasts
    exact processQueue_eq_done now _ (by dsimp only; omega)
  · unfold setMaxToasts
    rw [hv, hpc]
  · unfold setMaxToasts
    rw [hq, hpc]

/-- A toast with no options, used to populate demo states. -/
def plainToast (id : String) (title : String) : Toast :=
  mkToast id { variant := ToastVariant.info, title := title }

/-- Demo state for the C9 witness: two visible toasts, one queued. -/
def c9Demo : ManagerState :=
  { initialManagerState with
    visibleToasts := [plainToast "a" "one", plainToast "b" "two"]
    queuedToasts := [plainToast "c" "three"] }

/-- Witness for C9: shrinking the bound to one below the visible count
of two only updates the bound; nothing is evicted or promoted. -/
theorem setMaxToasts_behavior_witness :
    1 ≤ c9Demo.visibleToasts.length ∧
      setMaxToasts 0 1 c9Demo = { c9Demo with maxToasts := 1 } := by
  constructor
  · decide
  · exact (setMaxToasts_behavior 0 1 c9Demo).2.1 (by decide)

/-! ## C3: dismissal at capacity backfills from the queue front -/

/-- When exactly one visible slot is free, processQueue promotes exactly
the front of the queue. -/
theorem processQueue_one_slot (now : Int) (s2 : ManagerState) (q0 : Toast) (qrest : List Toast)
    (hlen : s2.visibleToasts.length + 1 = s2.maxToasts)
    (hq : s2.queuedToasts = q0 :: qrest) :
    (processQueue now s2).visibleToasts = s2.visibleToasts ++ [q0] ∧
      (processQueue now s2).queuedToasts = qrest := by
  obtain ⟨hv, hqd, hm⟩ := processQueue_spec now s2
  have hp : promoCount s2 = 1 := by
    unfold promoCount
    rw [hq, List.length_cons]
    omega
  constructor
  · rw [hv, hp, hq]
    rfl
  · rw [hqd, hp, hq]
    rfl

/-- C3: dismissing a visible toast while the manager is at capacity with
a non-empty queue promotes exactly the front queued toast, and the
visible count returns to its pre-dismiss value. -/
theorem dismiss_at_capacity_promotes_front (now : Int) (id : String) (s : ManagerState)
    (q0 : Toast) (qrest : List Toast)
    (hfull : s.visibleToasts.length = s.maxToasts)
    (hq : s.queuedToasts = q0 :: qrest)
    (hone : s.visibleToasts.countP (fun t => t.id == id) = 1)
    (hqid : ∀ t ∈ s.queuedToasts, t.id ≠ id) :
    (dismissToast now id s).visibleToasts
        = s.visibleToasts.filter (fun t => t.id != id) ++ [q0] ∧
      (dismissToast now id s).queuedToasts = qrest ∧
      (dismissToast now id s).visibleToasts.length = s.visibleToasts.length := by
  have hflen : (s.visibleToasts.filter (fun t => t.id != id)).length + 1
      = s.visibleToasts.length := by
    have hsplit := List.length_eq_countP_add_countP (fun t => t.id == id) s.visibleToasts
    have hcp : (s.visibleToasts.filter (fun t => t.id != id)).length
        = s.visibleToasts.countP (fun t => decide ¬ (t.id == id) = true) := by
      rw [← List.countP_eq_length_filter]
      apply List.countP_congr
      intro a _
      cases h : (a.id == id) with
      | false =>
        simp [h]
        simpa using h
      | true =>
        simp [h]
        simpa using h
    omega
  have hqfil : s.queuedToasts.filter (fun t => t.id != id) = s.queuedToasts := by
    rw [List.filter_eq_self]
    intro t ht
    simpa using hqid t ht
  have key : ∀ tm : List (String × Int),
      (processQueue now
          { visibleToasts := s.visibleToasts.filter (fun t => t.id != id),
            queuedToasts := s.queuedToasts.filter (fun t => t.id != id),
            maxToasts := s.maxToasts,
            timers := tm,
            remainingTime := mapDelete s.remainingTime id,
            startTime := mapDelete s.startTime id,
            hasAnnouncer := s.hasAnnouncer,
            announceLog := s.announceLog }).visibleToasts
          = s.visibleToasts.filter (fun t => t.id != id) ++ [q0] ∧
        (processQueue now
            { visibleToasts := s.visibleToasts.filter (fun t => t.id != id),
              queuedToasts := s.queuedToasts.filter (fun t => t.id != id),
              maxToasts := s.maxToasts,
              timers := tm,
              remainingTime := mapDelete s.remainingTime id,
              startTime := mapDelete s.startTime id,
              hasAnnouncer := s.hasAnnouncer,
              announceLog := s.announceLog }).queuedToasts = qrest := by
    intro tm
    refine processQueue_one_slot now _ q0 qrest ?_ ?_
    · show (s.visibleToasts.filter (fun t => t.id != id)).length + 1 = s.maxToasts
      rw [hflen, hfull]
    · show s.queuedToasts.filter (fun t => t.id != id) = q0 :: qrest
      rw [hqfil, hq]
  have hlen3 : ∀ tm : List (String × Int),
      (processQueue now
          { visibleToasts := s.visibleToasts.filter (fun t => t.id != id),
            queuedToasts := s.queuedToasts.filter (fun t => t.id != id),
            maxToasts := s.maxToasts,
            timers := tm,
            remainingTime := mapDelete s.remainingTime id,
            startTime := mapDelete s.startTime id,
            hasAnnouncer := s.hasAnnouncer,
            announceLog := s.announceLog }).visibleToasts.length
        = s.visibleToasts.length := by
    intro tm
    rw [(key tm).1, List.length_append, List.length_cons, List.length_nil, hflen]
  unfold dismissToast
  dsimp only
  split
  · exact ⟨(key (mapDelete s.timers id)).1, (key (mapDelete s.timers id)).2,
      hlen3 (mapDelete s.timers id)⟩
  · exact ⟨(key s.timers).1, (key s.timers).2, hlen3 s.timers⟩

/-- Demo state for the C3 witness: capacity one, one visible toast, one
queued toast. -/
def c3Demo : ManagerState :=
  { initialManagerState with
    maxToasts := 1
    visibleToasts := [plainToast "a" "one"]
    queuedToasts := [plainToast "c" "three"] }

/-- Witness for C3: dismissing the only visible toast promotes the
queued toast and restores the visible count. -/
theorem dismiss_at_capacity_promotes_front_witness :
    (dismissToast 5 "a" c3Demo).visibleToasts
        = c3Demo.visibleToasts.filter (fun t => t.id != "a") ++ [plainToast "c" "three"] ∧
      (dismissToast 5 "a" c3Demo).queuedToasts = [] ∧
      (dismissToast 5 "a" c3Demo).visibleToasts.length = c3Demo.visibleToasts.length :=
  dismiss_at_capacity_promotes_front 5 "a" c3Demo (plainToast "c" "three") []
    (by decide) (by decide) (by decide) (by decide)

/-! ## C8: dismissal is idempotent -/

/-- After a dismissal the retired id is gone from every structure, and
the queue/capacity loop invariant holds. -/
theorem dismissToast_facts (now : Int) (id : String) (s : ManagerState) :
    mapGet (dismissToast now id s).timers id = none ∧
      mapGet (dismissToast now id s).remainingTime id = none ∧
      mapGet (dismissToast now id s).startTime id = none ∧
      (∀ t ∈ (dismissToast now id s).visibleToasts, t.id ≠ id) ∧
      (∀ t ∈ (dismissToast now id s).queuedToasts, t.id ≠ id) ∧
      ((dismissToast now id s).queuedToasts = [] ∨
        (dismissToast now id s).maxToasts
          ≤ (dismissToast now id s).visibleToasts.length) := by
  have key : ∀ tm : List (String × Int), mapGet tm id = none →
      mapGet (processQueue now
          { visibleToasts := s.visibleToasts.filter (fun t => t.id != id),
            queuedToasts := s.queuedToasts.filter (fun t => t.id != id),
            maxToasts := s.maxToasts,
            timers := tm,
            remainingTime := mapDelete s.remainingTime id,
            startTime := mapDelete s.startTime id,
            hasAnnouncer := s.hasAnnouncer,
            announceLog := s.announceLog }).timers id = none ∧
        mapGet (processQueue now
          { visibleToasts := s.visibleToasts.filter (fun t => t.id != id),
            queuedToasts := s.queuedToasts.filter (fun t => t.id != id),
            maxToasts := s.maxToasts,
            timers := tm,
            remainingTime := mapDelete s.remainingTime id,
            startTime := mapDelete s.startTime id,
            hasAnnouncer := s.hasAnnouncer,
            announceLog := s.announceLog }).remainingTime id = none ∧
        mapGet (processQueue now
          { visibleToasts := s.visibleToasts.filter (fun t => t.id != id),
            queuedToasts := s.queuedToasts.filter (fun t => t.id != id),
            maxToasts := s.maxToasts,
            timers := tm,
            remainingTime := mapDelete s.remainingTime id,
            startTime := mapDelete s.startTime id,
            hasAnnouncer := s.hasAnnouncer,
            announceLog := s.announceLog }).startTime id = none ∧
        (∀ t ∈ (processQueue now
          { visibleToasts := s.visibleToasts.filter (fun t => t.id != id),
            queuedToasts := s.queuedToasts.filter (fun t => t.id != id),
            maxToasts := s.maxToasts,
            timers := tm,
            remainingTime := mapDelete s.remainingTime id,
            startTime := mapDelete s.startTime id,
            hasAnnouncer := s.hasAnnouncer,
            announceLog := s.announceLog }).visibleToasts, t.id ≠ id) ∧
        (∀ t ∈ (processQueue now
          { visibleToasts := s.visibleToasts.filter (fun t => t.id != id),
            queuedToasts := s.queuedToasts.filter (fun t => t.id != id),
            maxToasts := s.maxToasts,
            timers := tm,
            remainingTime := mapDelete s.remainingTime id,
            startTime := mapDelete s.startTime id,
            hasAnnouncer := s.hasAnnouncer,
            announceLog := s.announceLog }).queuedToasts, t.id ≠ id) ∧
        ((processQueue now
          { visibleToasts := s.visibleToasts.filter (fun t => t.id != id),
            queuedToasts := s.queuedToasts.filter (fun t => t.id != id),
            maxToasts := s.maxToasts,
            timers := tm,
            remainingTime := mapDelete s.remainingTime id,
            startTime := mapDelete s.startTime id,
            hasAnnouncer := s.hasAnnouncer,
            announceLog := s.announceLog }).queuedToasts = [] ∨
          (processQueue now
          { visibleToasts := s.visibleToasts.filter (fun t => t.id != id),
            queuedToasts := s.queuedToasts.filter (fun t => t.id != id),
            maxToasts := s.maxToasts,
            timers := tm,
            remainingTime := mapDelete s.remainingTime id,
            startTime := mapDelete s.startTime id,
            hasAnnouncer := s.hasAnnouncer,
            announceLog := s.announceLog }).maxToasts
            ≤ (processQueue now
          { visibleToasts := s.visibleToasts.filter (fun t => t.id != id),
            queuedToasts := s.queuedToasts.filter (fun t => t.id != id),
            maxToasts := s.maxToasts,
            timers := tm,
            remainingTime := mapDelete s.remainingTime id,
            startTime := mapDelete s.startTime id,
            hasAnnouncer := s.hasAnnouncer,
            announceLog := s.announceLog }).visibleToasts.length) := by
    intro tm htm
    have hqid : ∀ t ∈ (s.queuedToasts.filter (fun t => t.id != id)), t.id ≠ id := by
      intro t ht
      have := (List.mem_filter.mp ht).2
      simpa using this
    obtain ⟨pt, pr, ps, _⟩ := processQueue_preserve now
      { visibleToasts := s.visibleToasts.filter (fun t => t.id != id),
        queuedToasts := s.queuedToasts.filter (fun t => t.id != id),
        maxToasts := s.maxToasts,
        timers := tm,
        remainingTime := mapDelete s.remainingTime id,
        startTime := mapDelete s.startTime id,
        hasAnnouncer := s.hasAnnouncer,
        announceLog := s.announceLog } id hqid
    obtain ⟨sv, sq, _⟩ := processQueue_spec now
      { visibleToasts := s.visibleToasts.filter (fun t => t.id != id),
        queuedToasts := s.queuedToasts.filter (fun t => t.id != id),
        maxToasts := s.maxToasts,
        timers := tm,
        remainingTime := mapDelete s.remainingTime id,
        startTime := mapDelete s.startTime id,
        hasAnnouncer := s.hasAnnouncer,
        announceLog := s.announceLog }
    refine ⟨?_, ?_, ?_, ?_, ?_, ?_⟩
    · rw [pt]
      exact htm
    · rw [pr]
      exact mapGet_mapDelete_self s.remainingTime id
    · rw [ps]
      exact mapGet_mapDelete_self s.startTime id
    · intro t ht
      rw [sv] at ht
      rcases List.mem_append.mp ht with h1 | h1
      · have := (List.mem_filter.mp h1).2
        simpa using this
      · have h2 := List.mem_of_mem_take h1
        exact hqid t h2
    · intro t ht
      rw [sq] at ht
      have h2 := List.mem_of_mem_drop ht
      exact hqid t h2
    · exact processQueue_post now _
  unfold dismissToast
  dsimp only
  split
  · rename_i w hmatch
    exact key (mapDelete s.timers id) (mapGet_mapDelete_self s.timers id)
  · rename_i hmatch
    exact key s.timers hmatch

/-- C8: dismissToast is a total operation and dismissing the same id a
second time in a row leaves the whole manager state unchanged, also for
ids that were never assigned. -/
theorem dismiss_idempotent (now1 now2 : Int) (id : String) (s : ManagerState) :
    dismissToast now2 id (dismissToast now1 id s) = dismissToast now1 id s := by
  obtain ⟨ht, hr, hst, hv, hq, hpost⟩ := dismissToast_facts now1 id s
  set s1 := dismissToast now1 id s with hs1
  show dismissToast now2 id s1 = s1
  unfold dismissToast
  dsimp only
  simp only [ht]
  rw [mapDelete_eq_self _ _ hr, mapDelete_eq_self _ _ hst]
  rw [List.filter_eq_self.mpr (by intro a ha; simpa using hv a ha)]
  rw [List.filter_eq_self.mpr (by intro a ha; simpa using hq a ha)]
  show processQueue now2 s1 = s1
  rcases hpost with hqe | hge
  · by_cases hlt : s1.visibleToasts.length < s1.maxToasts
    · exact processQueue_eq_empty now2 s1 hlt hqe
    · exact processQueue_eq_done now2 s1 hlt
  · exact processQueue_eq_done now2 s1 (by omega)

/-! ## C2: pause/resume keeps exact elapsed-time accounting -/

/-- cyclesElapsed on the empty cycle list. -/
theorem cyclesElapsed_nil (t0 : Int) : cyclesElapsed t0 [] = 0 := rfl

/-- cyclesElapsed on a cons: the first running interval plus the rest. -/
theorem cyclesElapsed_cons (t0 tp tr : Int) (rest : List (Int × Int)) :
    cyclesElapsed t0 ((tp, tr) :: rest) = (tp - t0) + cyclesElapsed tr rest := rfl

/-- Ordered cycles accumulate a nonnegative running time. -/
theorem cyclesElapsed_nonneg (l : List (Int × Int)) :
    ∀ t0 : Int, cyclesOrdered t0 l = true → 0 ≤ cyclesElapsed t0 l := by
  induction l with
  | nil =>
    intro t0 _
    simp [cyclesElapsed]
  | cons c rest ih =>
    intro t0 h
    obtain ⟨tp, tr⟩ := c
    unfold cyclesOrdered at h
    rw [Bool.and_eq_true, decide_eq_true_iff] at h
    have h2 := ih tr h.2
    unfold cyclesElapsed
    omega

/-- C2: pauseToast folds the elapsed wall-clock time into the recorded
remaining time and cancels the timer, resumeToast schedules a timer for
exactly the recorded remaining time, and across any run of pause/resume
cycles the recorded remaining time stays the original remaining time
minus the total elapsed running time (no restart, no loss), as long as
the budget is not exhausted. -/
theorem pause_resume_conservation (id : String) (cycles : List (Int × Int)) :
    ∀ (s : ManagerState) (t0 r w : Int),
      mapGet s.timers id = some w →
      mapGet s.startTime id = some t0 →
      mapGet s.remainingTime id = some r →
      cyclesOrdered t0 cycles = true →
      cyclesElapsed t0 cycles < r →
      mapGet (applyCycles id cycles s).remainingTime id
          = some (r - cyclesElapsed t0 cycles) ∧
        mapGet (applyCycles id cycles s).timers id
          = some (if cycles.isEmpty then w else r - cyclesElapsed t0 cycles) := by
  induction cycles with
  | nil =>
    intro s t0 r w hw _ hr _ _
    unfold applyCycles cyclesElapsed
    rw [hr, hw]
    norm_num
  | cons c rest ih =>
    intro s t0 r w hw hs hr hord hlt
    obtain ⟨tp, tr⟩ := c
    unfold cyclesOrdered at hord
    rw [Bool.and_eq_true, decide_eq_true_iff] at hord
    obtain ⟨hord1, hordr⟩ := hord
    have hrestpos : 0 ≤ cyclesElapsed tr rest := cyclesElapsed_nonneg rest tr hordr
    unfold cyclesElapsed at hlt
    have hr1 : max 0 (r - (tp - t0)) = r - (tp - t0) := by omega
    have hsp : pauseToast tp id s
        = { s with
            remainingTime := mapSet s.remainingTime id (max 0 (r - (tp - t0)))
            timers := mapDelete s.timers id } := by
      unfold pauseToast
      rw [hw, hs, hr]
    have hspt : mapGet (pauseToast tp id s).timers id = none := by
      rw [hsp]
      exact mapGet_mapDelete_self s.timers id
    have hspr : mapGet (pauseToast tp id s).remainingTime id = some (r - (tp - t0)) := by
      rw [hsp]
      dsimp only
      rw [mapGet_mapSet_self, hr1]
    have hsps : mapGet (pauseToast tp id s).startTime id = some t0 := by
      rw [hsp]
      exact hs
    have hpos : 0 < r - (tp - t0) := by omega
    have hsr : resumeToast tr id (pauseToast tp id s)
        = { pauseToast tp id s with
            startTime := mapSet (pauseToast tp id s).startTime id tr
            timers := mapSet (pauseToast tp id s).timers id (r - (tp - t0)) } := by
      unfold resumeToast
      rw [hspt]
      simp only [Option.isSome_none, Bool.false_eq_true, if_false]
      rw [hspr]
      dsimp only
      rw [if_neg (by omega)]
    have hrt : mapGet (resumeToast tr id (pauseToast tp id s)).timers id
        = some (r - (tp - t0)) := by
      rw [hsr]
      dsimp only
      rw [mapGet_mapSet_self]
    have hrs : mapGet (resumeToast tr id (pauseToast tp id s)).startTime id = some tr := by
      rw [hsr]
      dsimp only
      rw [mapGet_mapSet_self]
    have hrr : mapGet (resumeToast tr id (pauseToast tp id s)).remainingTime id
        = some (r - (tp - t0)) := by
      rw [hsr]
      dsimp only
      exact hspr
    have happly : applyCycles id ((tp, tr) :: rest) s
        = applyCycles id rest (resumeToast tr id (pauseToast tp id s)) := rfl
    rw [happly]
    obtain ⟨c1, c2⟩ := ih (resumeToast tr id (pauseToast tp id s)) tr (r - (tp - t0))
      (r - (tp - t0)) hrt hrs hrr hordr (by omega)
    constructor
    · rw [c1, cyclesElapsed_cons]
      congr 1
      ring
    · rw [c2]
      cases hrest : rest with
      | nil =>
        simp only [List.isEmpty_nil, List.isEmpty_cons, if_true, Bool.false_eq_true, if_false,
          cyclesElapsed_cons, cyclesElapsed_nil]
        congr 1
        ring
      | cons d ds =>
        simp only [List.isEmpty_cons, Bool.false_eq_true, if_false, cyclesElapsed_cons]
        congr 1
        ring

/-- Input of the C2 witness toast: a ten-second duration. -/
def c2Input : ToastInput :=
  { variant := ToastVariant.info
    title := "slow"
    opts := { duration := some 10000 } }

/-- A toast with a ten-second duration shown at time zero. -/
def c2Demo : ManagerState := showToast 0 (mkToast "a" c2Input) initialManagerState

/-- Witness for C2: pausing the 10000ms toast at 3000ms and resuming at
3500ms leaves exactly 7000ms recorded and a 7000ms timer. -/
theorem pause_resume_conservation_witness :
    mapGet (applyCycles "a" [(3000, 3500)] c2Demo).remainingTime "a" = some 7000 ∧
      mapGet (applyCycles "a" [(3000, 3500)] c2Demo).timers "a" = some 7000 := by
  have h := pause_resume_conservation "a" [(3000, 3500)] c2Demo 0 10000 10000
    (by decide) (by decide) (by decide) (by decide) (by decide)
  exact ⟨h.1.trans (by decide), h.2.trans (by decide)⟩

/-! ## C7: announcement happens at add time, visible or queued -/

/-- Log appended by announceToast, as a closed form. -/
theorem announceToast_announceLog (t : Toast) (s : ManagerState) :
    (announceToast t s).announceLog
      = if t.announceToScreenReader && s.hasAnnouncer then
          s.announceLog ++ [(announceMessage t, announcePriorityOf t)]
        else s.announceLog := by
  unfold announceToast
  split
  · rfl
  · rfl

/-- showToast announces exactly like announceToast does. -/
theorem showToast_announceLog (now : Int) (t : Toast) (s : ManagerState) :
    (showToast now t s).announceLog
      = if t.announceToScreenReader && s.hasAnnouncer then
          s.announceLog ++ [(announceMessage t, announcePriorityOf t)]
        else s.announceLog := by
  unfold showToast
  dsimp only
  split
  · rw [announceToast_announceLog]
  · rw [announceToast_announceLog]

/-- C7: every added toast with announcements enabled (the default) is
announced exactly once at add time — also when it is only queued — with
the per-toast priority override when present, otherwise assertive for
errors and polite for all other severities, and with the title extended
by a period and the description when a description is present. -/
theorem announce_on_add_even_when_queued (now : Int) (id : String) (inp : ToastInput)
    (s : ManagerState)
    (hann : s.hasAnnouncer = true)
    (hen : inp.opts.announceToScreenReader.getD true = true) :
    (addToast now id inp s).announceLog
      = s.announceLog ++
        [((match inp.opts.description with
            | some d => if d != "" then inp.title ++ ". " ++ d else inp.title
            | none => inp.title),
          inp.opts.announcementPriority.getD
            (if inp.variant = ToastVariant.error then AnnouncementPriority.assertive
             else AnnouncementPriority.polite))] := by
  have hmsg : announceMessage (mkToast id inp)
      = match inp.opts.description with
        | some d => if d != "" then inp.title ++ ". " ++ d else inp.title
        | none => inp.title := rfl
  have hpri : announcePriorityOf (mkToast id inp)
      = inp.opts.announcementPriority.getD
          (if inp.variant = ToastVariant.error then AnnouncementPriority.assertive
           else AnnouncementPriority.polite) := rfl
  have henb : (mkToast id inp).announceToScreenReader = true := hen
  unfold addToast
  dsimp only
  split
  · split
    · rw [announceToast_announceLog]
      dsimp only
      rw [henb, hann, hmsg, hpri]
      rfl
    · rw [announceToast_announceLog]
      dsimp only
      rw [henb, hann, hmsg, hpri]
      rfl
  · rw [showToast_announceLog, henb, hann, hmsg, hpri]
    rfl

/-- State at capacity zero with a registered announcer: every added
toast is queued. -/
def c7Demo : ManagerState := { initialManagerState with maxToasts := 0, hasAnnouncer := true }

/-- Error input with a description for the C7 witness. -/
def c7Input : ToastInput :=
  { variant := ToastVariant.error
    title := "oops"
    opts := { description := some "disk full" } }

/-- Witness for C7: an error toast with a description, added while it
can only be queued, is announced assertively with the joined message. -/
theorem announce_on_add_even_when_queued_witness :
    c7Demo.hasAnnouncer = true ∧
      c7Input.opts.announceToScreenReader.getD true = true ∧
      (addToast 0 "x" c7Input c7Demo).announceLog
        = [("oops. disk full", AnnouncementPriority.assertive)] := by
  refine ⟨by decide, by decide, ?_⟩
  have h := announce_on_add_even_when_queued 0 "x" c7Input c7Demo (by decide) (by decide)
  exact h.trans (by decide)

/-! ## C10: a queued toast is announced again on promotion -/

/-- The (message, priority) pair announceToast passes to the callback
for a given toast. -/
def announceEntry (t : Toast) : String × AnnouncementPriority :=
  (announceMessage t, announcePriorityOf t)

/-- The announcement a toast contributes to the log when processed:
its entry when its announcements are enabled, nothing otherwise. -/
def announceEvent (t : Toast) : Option (String × AnnouncementPriority) :=
  if t.announceToScreenReader then some (announceEntry t) else none

/-- pauseToast never invokes the announce callback. -/
theorem pauseToast_announceLog (now : Int) (id : String) (s : ManagerState) :
    (pauseToast now id s).announceLog = s.announceLog := by
  unfold pauseToast
  split
  · rfl
  · split <;> rfl

/-- resumeToast never invokes the announce callback. -/
theorem resumeToast_announceLog (now : Int) (id : String) (s : ManagerState) :
    (resumeToast now id s).announceLog = s.announceLog := by
  unfold resumeToast
  split
  · rfl
  · split
    · rfl
    · split <;> rfl

/-- With enough fuel, the promotion loop appends to the log exactly one
entry per announce-enabled toast of the promoted queue prefix, in queue
order, and nothing else. -/
theorem processQueueAux_announceLog (now : Int) (fuel : Nat) :
    ∀ s : ManagerState, s.queuedToasts.length ≤ fuel → s.hasAnnouncer = true →
      (processQueueAux now fuel s).announceLog
        = s.announceLog ++ (s.queuedToasts.take (promoCount s)).filterMap announceEvent := by
  induction fuel with
  | zero =>
    intro s h _
    have hq : s.queuedToasts = [] := List.eq_nil_of_length_eq_zero (by omega)
    rw [processQueueAux.eq_1]
    simp [promoCount, hq]
  | succ n ih =>
    intro s h hann
    by_cases hlt : s.visibleToasts.length < s.maxToasts
    · cases hq : s.queuedToasts with
      | nil =>
        have he : processQueueAux now (n + 1) s = s := by
          rw [processQueueAux.eq_2, if_pos hlt, hq]
        rw [he]
        simp [promoCount, hq]
      | cons t rest =>
        have hstep : processQueueAux now (n + 1) s
            = processQueueAux now n (showToast now t { s with queuedToasts := rest }) := by
          rw [processQueueAux.eq_2, if_pos hlt, hq]
        have hlen : (showToast now t { s with queuedToasts := rest }).queuedToasts.length ≤ n := by
          rw [showToast_queuedToasts]
          dsimp only
          rw [hq] at h
          rw [List.length_cons] at h
          omega
        have hannA : (showToast now t { s with queuedToasts := rest }).hasAnnouncer = true := by
          rw [showToast_hasAnnouncer]
          exact hann
        have harith : promoCount s =
            promoCount (showToast now t { s with queuedToasts := rest }) + 1 := by
          unfold promoCount
          rw [showToast_visibleToasts, showToast_queuedToasts, showToast_maxToasts]
          dsimp only
          rw [hq]
          simp only [List.length_append, List.length_cons, List.length_nil]
          omega
        have hlog := ih (showToast now t { s with queuedToasts := rest }) hlen hannA
        rw [showToast_queuedToasts] at hlog
        dsimp only at hlog
        rw [hstep, hlog, showToast_announceLog]
        dsimp only
        rw [harith, List.take_succ_cons, List.filterMap_cons]
        cases hb : t.announceToScreenReader with
        | false => simp [announceEvent, hb, hann]
        | true => simp [announceEvent, announceEntry, hb, hann]
    · have he : processQueueAux now (n + 1) s = s := by
        rw [processQueueAux.eq_2, if_neg hlt]
      rw [he]
      have h0 : promoCount s = 0 := by
        unfold promoCount
        omega
      simp [h0]

/-- processQueue appends to the log exactly one entry per
announce-enabled toast of the promoted queue prefix, in queue order. -/
theorem processQueue_announceLog (now : Int) (s : ManagerState)
    (hann : s.hasAnnouncer = true) :
    (processQueue now s).announceLog
      = s.announceLog ++ (s.queuedToasts.take (promoCount s)).filterMap announceEvent :=
  processQueueAux_announceLog now s.queuedToasts.length s (Nat.le_refl _) hann

/-- C10: for every announce-enabled toast and every manager state with a
registered announcer: a toast added at capacity is queued and its entry
is appended exactly once at add time; a toast added below capacity is
shown and its entry is appended exactly once at add time; every
processQueue run appends exactly the entries of the announce-enabled
toasts of the promoted queue prefix (so a promotion invokes the callback
once more for the promoted toast, and a toast that is never in the queue
is never re-announced); and pause and resume never announce. Hence a
queued-then-promoted toast is announced twice in total, a directly shown
toast once. -/
theorem queued_toast_announced_twice (now : Int) (id : String) (inp : ToastInput)
    (s : ManagerState)
    (hann : s.hasAnnouncer = true)
    (hen : (mkToast id inp).announceToScreenReader = true) :
    (s.maxToasts ≤ s.visibleToasts.length →
        mkToast id inp ∈ (addToast now id inp s).queuedToasts ∧
        (addToast now id inp s).announceLog
          = s.announceLog ++ [announceEntry (mkToast id inp)]) ∧
      (s.visibleToasts.length < s.maxToasts →
        mkToast id inp ∈ (addToast now id inp s).visibleToasts ∧
        (addToast now id inp s).announceLog
          = s.announceLog ++ [announceEntry (mkToast id inp)]) ∧
      (∀ (now2 : Int) (s2 : ManagerState), s2.hasAnnouncer = true →
        (processQueue now2 s2).announceLog
          = s2.announceLog
            ++ (s2.queuedToasts.take (promoCount s2)).filterMap announceEvent) ∧
      (∀ (now2 : Int) (s2 : ManagerState), s2.hasAnnouncer = true →
        mkToast id inp ∈ s2.queuedToasts.take (promoCount s2) →
        ∃ p q, (processQueue now2 s2).announceLog
          = s2.announceLog ++ p ++ announceEntry (mkToast id inp) :: q) ∧
      (∀ (now2 : Int) (id2 : String) (s2 : ManagerState),
        (pauseToast now2 id2 s2).announceLog = s2.announceLog) ∧
      (∀ (now2 : Int) (id2 : String) (s2 : ManagerState),
        (resumeToast now2 id2 s2).announceLog = s2.announceLog) := by
  refine ⟨?_, ?_, ?_, ?_, ?_, ?_⟩
  · intro hcap
    unfold addToast
    dsimp only
    rw [if_pos hcap]
    split
    · constructor
      · rw [announceToast_queuedToasts]
        exact List.mem_cons_self _ _
      · rw [announceToast_announceLog]
        dsimp only
        rw [hen, hann]
        rfl
    · constructor
      · rw [announceToast_queuedToasts]
        dsimp only
        exact List.mem_append_right _ (by simp)
      · rw [announceToast_announceLog]
        dsimp only
        rw [hen, hann]
        rfl
  · intro hlt
    unfold addToast
    dsimp only
    rw [if_neg (by omega)]
    constructor
    · rw [showToast_visibleToasts]
      exact List.mem_append_right _ (by simp)
    · rw [showToast_announceLog, hen, hann]
      rfl
  · intro now2 s2 h2
    exact processQueue_announceLog now2 s2 h2
  · intro now2 s2 h2 hmem
    have h3 := processQueue_announceLog now2 s2 h2
    have hev : announceEvent (mkToast id inp) = some (announceEntry (mkToast id inp)) := by
      unfold announceEvent
      rw [hen]
      rfl
    have hmem2 : announceEntry (mkToast id inp)
        ∈ (s2.queuedToasts.take (promoCount s2)).filterMap announceEvent :=
      List.mem_filterMap.mpr ⟨mkToast id inp, hmem, hev⟩
    obtain ⟨p, q, hpq⟩ := List.append_of_mem hmem2
    refine ⟨p, q, ?_⟩
    rw [h3, hpq]
    simp
  · intro now2 id2 s2
    exact pauseToast_announceLog now2 id2 s2
  · intro now2 id2 s2
    exact resumeToast_announceLog now2 id2 s2

/-- Manager with capacity one and an announcer, for the C10 witness. -/
def c10State0 : ManagerState :=
  { initialManagerState with maxToasts := 1, hasAnnouncer := true }

/-- First toast of the C10 witness scenario (shown directly). -/
def c10InputA : ToastInput := { variant := ToastVariant.success, title := "first" }

/-- Second toast of the C10 witness scenario (queued, later promoted). -/
def c10InputB : ToastInput := { variant := ToastVariant.success, title := "second" }

/-- State of the C10 witness after the first toast is shown: the manager
is at its capacity of one. -/
def c10s1 : ManagerState := addToast 0 "a" c10InputA c10State0

/-- Promotion state of the C10 witness: the queued second toast is the
whole promoted prefix once the visible slot is free again. -/
def c10s2 : ManagerState :=
  { c10State0 with
    queuedToasts := [mkToast "b" c10InputB]
    announceLog := [announceEntry (mkToast "a" c10InputA), announceEntry (mkToast "b" c10InputB)] }

/-- Witness for C10: the second toast is queued and announced at add
time while the first occupies the only slot, and the promotion run
announces its entry once more. -/
theorem queued_toast_announced_twice_witness :
    c10s1.hasAnnouncer = true ∧
      (mkToast "b" c10InputB).announceToScreenReader = true ∧
      c10s1.maxToasts ≤ c10s1.visibleToasts.length ∧
      (mkToast "b" c10InputB ∈ (addToast 1 "b" c10InputB c10s1).queuedToasts ∧
        (addToast 1 "b" c10InputB c10s1).announceLog
          = c10s1.announceLog ++ [announceEntry (mkToast "b" c10InputB)]) ∧
      (∃ p q, (processQueue 2 c10s2).announceLog
        = c10s2.announceLog ++ p ++ announceEntry (mkToast "b" c10InputB) :: q) := by
  have h := queued_toast_announced_twice 1 "b" c10InputB c10s1 (by decide) (by decide)
  exact ⟨by decide, by decide, by decide, h.1 (by decide),
    h.2.2.2.1 2 c10s2 (by decide) (by decide)⟩

/-! ## C5 and C6: the offset-based adapter and the aggregate view -/

/-- The adapter as constructed with page size 20. -/
def adapter20 : DummyJSONProductAdapter := { limit := 20 }

/-- C5: with page size 20 the default locators for skips 0 and 20 differ
only in the skip parameter, a search filter routes to the search path
with a q parameter, and getNextPageParam yields the next offset (pages
fetched times page size) exactly while it is below the reported total,
and nothing once it reaches it. -/
theorem adapter20_buildURL_and_next_page :
    adapter20.buildURL {} 0 = "/products?limit=20&skip=0" ∧
      adapter20.buildURL {} 20 = "/products?limit=20&skip=20" ∧
      adapter20.buildURL { search := some "phone" } 0
        = "/products/search?limit=20&skip=0&q=phone" ∧
      (∀ (α : Type) (lastPage : ParsedPage α) (allPages : List (ParsedPage α)),
        adapter20.getNextPageParam lastPage allPages
          = if (allPages.length : Int) * 20 < lastPage.total
            then some ((allPages.length : Int) * 20) else none) ∧
      (∀ (α : Type) (lastPage : ParsedPage α) (allPages : List (ParsedPage α)),
        adapter20.getNextPageParam lastPage allPages = none
          ↔ lastPage.total ≤ (allPages.length : Int) * 20) := by
  refine ⟨by decide, by decide, by decide, ?_, ?_⟩
  · intro α lastPage allPages
    rfl
  · intro α lastPage allPages
    unfold DummyJSONProductAdapter.getNextPageParam
    dsimp only
    split
    · rename_i hlt
      constructor
      · intro h
        exact absurd h (by simp)
      · intro h
        have : adapter20.limit = 20 := rfl
        rw [this] at hlt
        omega
    · rename_i hge
      constructor
      · intro _
        have : adapter20.limit = 20 := rfl
        rw [this] at hge
        omega
      · intro _
        rfl

/-- First parsed page of the C6 scenario: five items, total 100, more
pages available. -/
def c6Page1 : ParsedPage Nat := { items := [1, 2, 3, 4, 5], total := 100, hasNextPage := true }

/-- C6: for a non-empty page list, the aggregate view flattens the
pages' items in fetch order (so its length is the sum of page sizes) and
takes total and hasNextPage from the most recently fetched page; and
after one 20-per-page page reporting total 100 with a next page, the
next page parameter is 20. -/
theorem infinite_data_aggregate_view (α π : Type) (d : InfiniteQueryData α π)
    (pre : List (ParsedPage α)) (lastPage : ParsedPage α)
    (hpages : d.pages = pre ++ [lastPage]) :
    (selectInfiniteData d).items = d.pages.flatMap (fun p => p.items) ∧
      (selectInfiniteData d).items.length = (d.pages.map (fun p => p.items.length)).sum ∧
      (selectInfiniteData d).items
        = pre.flatMap (fun p => p.items) ++ lastPage.items ∧
      (selectInfiniteData d).total = lastPage.total ∧
      (selectInfiniteData d).hasNextPage = lastPage.hasNextPage ∧
      adapter20.getNextPageParam c6Page1 [c6Page1] = some 20 := by
  refine ⟨rfl, ?_, ?_, ?_, ?_, by decide⟩
  · show (d.pages.flatMap (fun p => p.items)).length = _
    rw [List.length_flatMap]
    congr 1
  · show d.pages.flatMap (fun p => p.items) = _
    rw [hpages, List.flatMap_append]
    simp [List.flatMap_cons]
  · show ((d.pages.getLast?).map (fun p => p.total)).getD 0 = lastPage.total
    rw [hpages, List.getLast?_concat]
    rfl
  · show ((d.pages.getLast?).map (fun p => p.hasNextPage)).getD false = lastPage.hasNextPage
    rw [hpages, List.getLast?_concat]
    rfl

/-- Second parsed page of the C6 witness. -/
def c6Page2 : ParsedPage Nat := { items := [6, 7, 8], total := 100, hasNextPage := false }

/-- Cached query data of the C6 witness: two fetched pages. -/
def c6Data : InfiniteQueryData Nat Int := { pages := [c6Page1, c6Page2], pageParams := [0, 20] }

/-- Witness for C6: with two concrete fetched pages the aggregate view
concatenates first-page items first and reports the last page's total
and flag. -/
theorem infinite_data_aggregate_view_witness :
    c6Data.pages = [c6Page1] ++ [c6Page2] ∧
      (selectInfiniteData c6Data).items = [1, 2, 3, 4, 5, 6, 7, 8] ∧
      (selectInfiniteData c6Data).total = 100 ∧
      (selectInfiniteData c6Data).hasNextPage = false := by
  have h := infinite_data_aggregate_view Nat Int c6Data [c6Page1] c6Page2 rfl
  exact ⟨rfl, h.2.2.1.trans (by decide), h.2.2.2.1.trans (by decide),
    h.2.2.2.2.1.trans (by decide)⟩
